import Mathlib

/-!
Verification of the morphology-discretization and current-injection addressing
core of the `sbi` repository (files `stylized_cell.py` and
`current_injection.py`), as a shallow embedding in Lean 4.

Conventions of the embedding:
* Python floats are modelled as rationals (`ℚ`); 3-D points as `ℚ × ℚ × ℚ`.
* `math.sin` / `math.cos` are abstract parameters `sinq cosq : ℚ → ℚ` of the
  build: none of the verified structural properties depends on their values.
* Fallible Python code is modelled in `Except PyError`; the error constructors
  name the Python exception class actually raised.
* NEURON (`neuron.h`) is an external collaborator.  The few NEURON behaviours
  the code relies on are modelled explicitly where used, each with a comment
  stating the NEURON semantics being assumed.
-/

/-- Python exception classes that the modelled code can raise.
`unboundLocalError` models `UnboundLocalError` (reading the local `psec`
before assignment), `nrnError` models the NEURON error raised by calling
`section(loc)` with `loc` outside `[0, 1]`, `valueError` is also used for
NEURON's rejection of `sec.nseg < 1`. -/
inductive PyError where
  | typeError
  | valueError
  | indexError
  | attributeError
  | unboundLocalError
  | nrnError
  deriving Repr, DecidableEq

/-- A 3-D point / vector with rational coordinates. -/
abbrev Vec3 := ℚ × ℚ × ℚ

/-- One row of the geometry table (`pandas` dataframe): columns
`{name, type (1 = soma), pid, L, R, ang, axial}` (spec §6). -/
structure GeomRow where
  name : String
  type : ℤ
  pid : ℤ
  L : ℚ
  R : ℚ
  ang : ℚ
  axial : Bool
  deriving Repr, DecidableEq

/-- A NEURON `h.Section` as the code uses it: name, diameter, the two 3-D
points set by `set_location` (`pt3dadd`), the number of stored 3-D points
(`n3d()`, 0 on a fresh section, 2 after `set_location`), the segment count
`nseg`, and the index of the parent section recorded by `connect`
(`none` for the unconnected soma). -/
structure Sec where
  name : String
  diam : ℚ
  pt0 : Vec3
  pt1 : Vec3
  n3d : ℕ
  nseg : ℕ
  parent : Option ℕ
  deriving Repr, DecidableEq

/-- A fresh `h.Section(name=name)` after `sec.diam = diam`
(`Stylized_Cell.add_section`, stylized_cell.py lines 88-93): no 3-D points
yet, NEURON's default `nseg = 1`, not connected. -/
def mkSec (name : String) (diam : ℚ) : Sec :=
  { name := name, diam := diam, pt0 := (0, 0, 0), pt1 := (0, 0, 0),
    n3d := 0, nseg := 1, parent := none }

/-- Python list indexing `xs[i]` for `i : ℤ`: negative indices count from the
end; `none` models `IndexError`. -/
def pyIdx (len : ℕ) (i : ℤ) : Option ℕ :=
  if i < 0 then
    if -(len : ℤ) ≤ i then some (i + len).toNat else none
  else
    if i < (len : ℤ) then some i.toNat else none

/-- Python `xs[i]` on a list. -/
def pyGet (xs : List α) (i : ℤ) : Option α :=
  (pyIdx xs.length i).bind fun j => xs[j]?

/-- Python `xs[i]` as a fallible computation: raises `IndexError` when the
index is out of range. -/
def pyGetE (xs : List α) (i : ℤ) : Except PyError α :=
  match pyGet xs i with
  | some v => .ok v
  | none => .error .indexError

/-- `Stylized_Cell.set_location` (lines 95-99): `pt3dclear`, two `pt3dadd`
with the section's diameter, then `sec.nseg = nseg`.  NEURON rejects a
non-positive `nseg` (it must be a positive integer), modelled as
`valueError`. -/
def set_location (s : Sec) (p0 p1 : Vec3) (nseg : ℤ) : Except PyError Sec :=
  if nseg < 1 then .error .valueError
  else .ok { s with pt0 := p0, pt1 := p1, n3d := 2, nseg := nseg.toNat }

/-- Reading a section's distal 3-D point `[sec.x3d(1), sec.y3d(1), sec.z3d(1)]`
(line 72).  NEURON raises an error when the section holds fewer than two 3-D
points. -/
def x3dPt1 (s : Sec) : Except PyError Vec3 :=
  if s.n3d < 2 then .error .indexError else .ok s.pt1

/-- Loop body of `Stylized_Cell.set_morphology` for the soma row `j = 0`
(lines 62-67, 79-84), after `sec_index[0] = self._nsec` and `add_section`:
`R0 := R`, `nseg = 1`, provisional `pt0 = (0, -2R, 0)`, `pt1 = (0, 0, 0)`.
If the soma row is non-axial the code then reads the local variable `psec`,
which has never been assigned on the very first iteration:
`UnboundLocalError`. -/
def rowStep0 (row : GeomRow) (all : List Sec) (si : List ℤ) :
    Except PyError (List Sec × List ℤ × ℚ) := do
  let s ← set_location (mkSec row.name (2 * row.R)) (0, -(2 * row.R), 0) (0, 0, 0) 1
  if row.axial then return (all ++ [s], si, row.R)
  else .error .unboundLocalError

/-- Loop body of `Stylized_Cell.set_morphology` for a non-soma row `j ≥ 1`
(lines 68-84), after `sec_index[j] = self._nsec` and `add_section`:
`nseg = ceil(L / dL)`; `pid = sec_index[row.pid]` (Python list indexing —
an out-of-range `pid` is an `IndexError`, while a forward reference reads
the still-initial value `0`); `psec = self.all[pid]`; the new section's
proximal point is `psec`'s distal point; `pt1 = pt0 + (0, L·sin ang, 0)`,
with first coordinate `L·cos ang` instead of `0` when the row is non-axial;
`connect` to `psec(1)`; `set_location`.  A non-axial row then adds a second
section, connected to the same `psec(1)`, with the same `pt0` and `nseg`
and with the first coordinate of `pt1` negated (line 83). -/
def rowStepN (dL : ℚ) (sinq cosq : ℚ → ℚ) (row : GeomRow) (all : List Sec)
    (si : List ℤ) (R0 : ℚ) : Except PyError (List Sec × List ℤ × ℚ) := do
  let s0 := mkSec row.name (2 * row.R)
  let nsegZ : ℤ := ⌈row.L / dL⌉
  let pidZ ← pyGetE si row.pid
  let psec ← pyGetE (all ++ [s0]) pidZ
  let pt0 ← x3dPt1 psec
  let off : Vec3 :=
    if row.axial then (0, row.L * sinq row.ang, 0)
    else (row.L * cosq row.ang, row.L * sinq row.ang, 0)
  let pt1 : Vec3 := (off.1 + pt0.1, off.2.1 + pt0.2.1, off.2.2 + pt0.2.2)
  let s0' ← set_location { s0 with parent := some pidZ.toNat } pt0 pt1 nsegZ
  if row.axial then return (all ++ [s0'], si, R0)
  else do
    let s1' ← set_location { mkSec row.name (2 * row.R) with parent := some pidZ.toNat }
      pt0 (-pt1.1, pt1.2) nsegZ
    return (all ++ [s0', s1'], si, R0)

/-- One iteration of the `for j,sec in self.geometry.iterrows()` loop
(lines 55-84): first `sec_index[j] = self._nsec` (line 60, `self._nsec`
always equals `len(self.all)`), then the soma or non-soma body. -/
def rowStep (dL : ℚ) (sinq cosq : ℚ → ℚ) (j : ℕ) (row : GeomRow)
    (all : List Sec) (si : List ℤ) (R0 : ℚ) :
    Except PyError (List Sec × List ℤ × ℚ) :=
  let si' := si.set j (all.length : ℤ)
  if j = 0 then rowStep0 row all si'
  else rowStepN dL sinq cosq row all si' R0

/-- The whole row loop of `set_morphology`, threading the section list, the
`sec_index` list and `R0` through the iterations; `j` is the current row
index. -/
def morphAux (dL : ℚ) (sinq cosq : ℚ → ℚ) :
    ℕ → List GeomRow → List Sec → List ℤ → ℚ → Except PyError (List Sec × ℚ)
  | _, [], all, _, R0 => .ok (all, R0)
  | j, row :: rest, all, si, R0 => do
    let r ← rowStep dL sinq cosq j row all si R0
    morphAux dL sinq cosq (j + 1) rest r.1 r.2.1 r.2.2

/-- The flattened-segment bookkeeping of `Stylized_Cell.store_segments`
(lines 101-110): walking `self.all` in order, append the running segment
total to `sec_id_in_seg`, then one handle `(isec, k)` per segment of the
section.  Returns `(segments, sec_id_in_seg)`. -/
def storeAux : ℕ → ℕ → List Sec → List (ℕ × ℕ) × List ℕ
  | _, _, [] => ([], [])
  | isec, run, s :: rest =>
    ((List.range s.nseg).map (fun k => (isec, k)) ++ (storeAux (isec + 1) (run + s.nseg) rest).1,
     run :: (storeAux (isec + 1) (run + s.nseg) rest).2)

/-- `Stylized_Cell.store_segments` (lines 101-110). -/
def Stylized_Cell.store_segments (all : List Sec) : List (ℕ × ℕ) × List ℕ :=
  storeAux 0 0 all

/-- The cell state published by a completed build: `self.all`,
`self.segments` (as `(section index, local segment index)` handles) and
`self.sec_id_in_seg`. -/
structure Cell where
  all : List Sec
  segments : List (ℕ × ℕ)
  sec_id_in_seg : List ℕ
  deriving Repr, DecidableEq

/-- Assemble the cell state after the build, running `store_segments`. -/
def mkCell (all : List Sec) : Cell :=
  let p := Stylized_Cell.store_segments all
  { all := all, segments := p.1, sec_id_in_seg := p.2 }

/-- Reading `self.soma` after the loop: the first section of `self.all`
(the section created at row 0); on an empty table it was never assigned
(`AttributeError`). -/
def somaGetE (all : List Sec) : Except PyError Sec :=
  match all[0]? with
  | some s => .ok s
  | none => .error .attributeError

/-- `Stylized_Cell.set_morphology` (lines 47-86) on a loaded geometry table:
reset, run the row loop with `sec_index = [0]*len(geometry)`, then finally
overwrite the soma's endpoints to the symmetric `(0, -R0, 0)`–`(0, R0, 0)`
(line 85; `self.soma` is `self.all[0]`, the first section created) and call
`store_segments`. -/
def Stylized_Cell.set_morphology (dL : ℚ) (sinq cosq : ℚ → ℚ)
    (rows : List GeomRow) : Except PyError Cell := do
  let p ← morphAux dL sinq cosq 0 rows [] (List.replicate rows.length (0 : ℤ)) 0
  let soma ← somaGetE p.1
  let soma' ← set_location soma (0, -p.2, 0) (0, p.2, 0) 1
  return mkCell (p.1.set 0 soma')

/-- The possible `geometry` arguments of `Stylized_Cell.__init__`: `None`,
something that is not a `pandas.DataFrame`, or a dataframe given by its
ordered rows. -/
inductive GeomInput where
  | noGeometry
  | notDataFrame
  | table (rows : List GeomRow)

/-- `Stylized_Cell.set_geometry` (lines 37-45): `None` is stored as-is,
a non-dataframe raises `TypeError`, `geometry.iloc[0]` on an empty
dataframe raises `IndexError`, and a first row whose `type` is not `1`
raises `ValueError`. -/
def Stylized_Cell.set_geometry : GeomInput → Except PyError (Option (List GeomRow))
  | .noGeometry => .ok none
  | .notDataFrame => .error .typeError
  | .table [] => .error .indexError
  | .table (r :: rest) =>
    if r.type = 1 then .ok (some (r :: rest)) else .error .valueError

/-- `Stylized_Cell.__init__` + `setup_all` (lines 10-35), restricted to the
structural core: `set_geometry`, then `set_morphology` when a geometry is
loaded (`set_channels` is a no-op stub and `calc_seg_coords` is not called
during construction).  Returns `none` when `geometry is None`. -/
def buildCell (dL : ℚ) (sinq cosq : ℚ → ℚ) (g : GeomInput) :
    Except PyError (Option Cell) :=
  match Stylized_Cell.set_geometry g with
  | .error e => .error e
  | .ok none => .ok none
  | .ok (some rows) =>
    match Stylized_Cell.set_morphology dL sinq cosq rows with
    | .error e => .error e
    | .ok cell => .ok (some cell)

/-- `np.linspace(pt0, pt1, num)` (calc_seg_coords, line 123): `num` evenly
spaced points, point `i` being `pt0 + (i/(num-1)) · (pt1 - pt0)` with both
endpoints included. -/
def linspace (a b : Vec3) (num : ℕ) : List Vec3 :=
  (List.range num).map fun (i : ℕ) => a + ((i : ℚ) / ((num : ℚ) - 1)) • (b - a)

/-- numpy basic slicing `xs[start:stop:step]` for a positive `step` and
`0 ≤ start ≤ stop ≤ len xs` (the resolved form of the slices
`[:-2:2]`, `[2::2]`, `[1:-1:2]` used in lines 124-126): element `k` of the
result is `xs[start + step*k]`, and the result has
`⌈(stop - start)/step⌉` elements. -/
def npSlice (xs : List Vec3) (start stop step : ℕ) : List Vec3 :=
  (List.range ((stop - start + step - 1) / step)).map fun k =>
    xs.getD (start + step * k) (0, 0, 0)

/-- The derived per-segment record `{dl, pc, r}` of `calc_seg_coords`. -/
structure SegCoord where
  dl : Vec3
  pc : Vec3
  r : ℚ
  deriving Repr, DecidableEq

/-- The rows of `calc_seg_coords` (lines 118-127) contributed by one section:
`pts = linspace(pt0, pt1, 2*nseg+1)`, proximal points `pts[:-2:2]`, distal
points `pts[2::2]`, centers `pts[1:-1:2]`, `dl = p1 - p0`, `pc = p05`,
`r = diam/2` for every segment of the section.  The negative stops `-2` and
`-1` are resolved against `len(pts) = 2*nseg+1`. -/
def sectionSegCoords (s : Sec) : List SegCoord :=
  let n := s.nseg
  let pts := linspace s.pt0 s.pt1 (2 * n + 1)
  let p0 := npSlice pts 0 (2 * n + 1 - 2) 2
  let p1 := npSlice pts 2 (2 * n + 1) 2
  let p05 := npSlice pts 1 (2 * n + 1 - 1) 2
  List.zipWith (fun (pr : Vec3 × Vec3) pc => { dl := pr.1 - pr.2, pc := pc, r := s.diam / 2 })
    (p1.zip p0) p05

/-- `Stylized_Cell.calc_seg_coords` (lines 112-131).  The Python code writes
each section's rows into preallocated arrays at offset
`sec_id_in_seg[isec]`; since `sec_id_in_seg` holds the running `nseg`
totals (see the store_segments theorems below), those slice assignments
amount to concatenating the per-section blocks in section order. -/
def Stylized_Cell.calc_seg_coords (cell : Cell) : List SegCoord :=
  (cell.all.map sectionSegCoords).flatten

/-- `Stylized_Cell.get_sec_by_id` (lines 133-137) after the normalization of
a single index to a one-element list: `[self.all[i] for i in index]`,
with Python indexing. -/
def Stylized_Cell.get_sec_by_id (cell : Cell) (index : List ℤ) :
    Except PyError (List Sec) :=
  index.mapM fun i =>
    match pyGet cell.all i with
    | some s => .ok s
    | none => .error .indexError

/-- `Stylized_Cell.get_seg_by_id` (lines 139-143), likewise over
`self.segments`. -/
def Stylized_Cell.get_seg_by_id (cell : Cell) (index : List ℤ) :
    Except PyError (List (ℕ × ℕ)) :=
  index.mapM fun i =>
    match pyGet cell.segments i with
    | some s => .ok s
    | none => .error .indexError

/-- `Current_injection.get_section` (current_injection.py lines 47-48):
`self.cell.all[self.sec_index]`, Python indexing. -/
def Current_injection.get_section (cell : Cell) (sec_index : ℤ) : Option Sec :=
  pyGet cell.all sec_index

/-- NEURON's realized position of a point process placed at `sec(loc)` on a
section with `nseg` segments, as reported by `pp.get_segment().x`:
`loc ≤ 0` and `loc ≥ 1` are placed on the zero-area end nodes (arc
positions exactly `0` and `1`), and an interior `loc` lands in segment
`⌊loc·nseg⌋`, whose center `(⌊loc·nseg⌋ + 1/2)/nseg` is the reported `x`
(NEURON `node_exact` / `node_index` semantics). -/
def neuronSegX (loc : ℚ) (nseg : ℕ) : ℚ :=
  if loc ≤ 0 then 0
  else if 1 ≤ loc then 1
  else ((⌊loc * nseg⌋ : ℚ) + 1 / 2) / nseg

/-- The addressing state a `Current_injection` keeps: the target section
index and the realized arc position `x` of the segment its `IClamp` was
attached to. -/
structure Current_injection.State where
  sec_index : ℤ
  segx : ℚ
  deriving Repr, DecidableEq

/-- The addressing part of `Current_injection.__init__` (lines 16-18):
`self.sec_index = sec_index`, then `h.IClamp(self.get_section()(loc))`.
`self.get_section()` raises `IndexError` for an invalid index;
`section(loc)` raises a NEURON error when `loc` is outside `[0, 1]`;
otherwise the clamp is attached and its segment has arc position
`neuronSegX loc nseg`. -/
def Current_injection.mk_inj (cell : Cell) (sec_index : ℤ) (loc : ℚ) :
    Except PyError Current_injection.State :=
  match Current_injection.get_section cell sec_index with
  | none => .error .indexError
  | some s =>
    if loc < 0 ∨ 1 < loc then .error .nrnError
    else .ok { sec_index := sec_index, segx := neuronSegX loc s.nseg }

/-- `Current_injection.get_segment_id` (lines 53-56):
`iseg = floor(self.get_segment().x * self.get_section().nseg)`, result
`self.cell.sec_id_in_seg[self.sec_index] + iseg`. -/
def Current_injection.get_segment_id (cell : Cell)
    (st : Current_injection.State) : Option ℤ :=
  match Current_injection.get_section cell st.sec_index,
      pyGet cell.sec_id_in_seg st.sec_index with
  | some s, some off => some ((off : ℤ) + ⌊st.segx * (s.nseg : ℚ)⌋)
  | _, _ => none

/-- Stand-in for the float-valued `math.sin` / `math.cos` in concrete
evaluations; the structural theorems hold for every choice of these
functions. -/
def zf : ℚ → ℚ := fun _ => 0

/-- The soma row of the worked example of spec §8. -/
def somaRow : GeomRow :=
  { name := "soma", type := 1, pid := 0, L := 20, R := 10, ang := 0, axial := true }

/-- The axial child row of the worked example of spec §8:
`L=100, R=5, ang=0, axial, pid=0`. -/
def dendRow : GeomRow :=
  { name := "dend", type := 2, pid := 0, L := 100, R := 5, ang := 0, axial := true }

/-- A non-axial row, like the mirrored-pair example of spec §8. -/
def mirrorRow : GeomRow :=
  { name := "tuft", type := 2, pid := 0, L := 50, R := 1, ang := 1, axial := false }

/-- The worked example of spec §8: geometry `soma(R=10)` plus
`child(L=100, R=5, ang=0, axial=true, pid=0)`. -/
def exRows : List GeomRow := [somaRow, dendRow]

/-- A geometry with a non-axial row: soma plus a mirrored pair. -/
def exMirrorRows : List GeomRow := [somaRow, mirrorRow]

/-- The cell built from `exMirrorRows` with `max_seg_length = 30`. -/
def exMirrorCell : Cell :=
  (Stylized_Cell.set_morphology 30 zf zf exMirrorRows).toOption.getD (mkCell [])

/-- The cell built from `exRows` with `max_seg_length = 30` (extracted with
an empty-cell default, only ever used after the build is proved to
succeed). -/
def exCell : Cell :=
  (match buildCell 30 zf zf (.table exRows) with
   | .ok (some c) => some c
   | _ => none).getD (mkCell [])

/-- End-to-end addressing pipeline on a freshly built cell, mirroring
`cell = Stylized_Cell(geometry); cell.add_injection(sec_index, loc=loc);
cell.injection[0].get_segment_id()`. -/
def resolveGlobalId (dL : ℚ) (g : GeomInput) (sec_index : ℤ) (loc : ℚ) :
    Option ℤ :=
  match buildCell dL zf zf g with
  | .ok (some cell) =>
    match Current_injection.mk_inj cell sec_index loc with
    | .ok st => Current_injection.get_segment_id cell st
    | .error _ => none
  | _ => none

/-! ## Helper lemmas -/

lemma getElem?_isSome_iff (l : List α) (i : ℕ) : (l[i]?).isSome ↔ i < l.length := by
  by_cases h : i < l.length
  · simp [List.getElem?_eq_getElem h, h]
  · rw [List.getElem?_eq_none (by omega)]
    simp [h]

lemma pyGet_isSome_iff (xs : List α) (i : ℤ) :
    (pyGet xs i).isSome ↔ -(xs.length : ℤ) ≤ i ∧ i < (xs.length : ℤ) := by
  unfold pyGet pyIdx
  by_cases hneg : i < 0
  · rw [if_pos hneg]
    by_cases hin : -(xs.length : ℤ) ≤ i
    · rw [if_pos hin]
      simp only [Option.some_bind, getElem?_isSome_iff]
      omega
    · rw [if_neg hin]
      simp only [Option.none_bind, Option.isSome_none, Bool.false_eq_true, false_iff]
      omega
  · rw [if_neg hneg]
    by_cases hin : i < (xs.length : ℤ)
    · rw [if_pos hin]
      simp only [Option.some_bind, getElem?_isSome_iff]
      omega
    · rw [if_neg hin]
      simp only [Option.none_bind, Option.isSome_none, Bool.false_eq_true, false_iff]
      omega

lemma pyGet_neg (xs : List α) (i : ℤ) (h1 : -(xs.length : ℤ) ≤ i) (h2 : i < 0) :
    pyGet xs i = xs[(i + xs.length).toNat]? := by
  unfold pyGet pyIdx
  rw [if_pos h2, if_pos h1]
  rfl

lemma pyGet_nonneg (xs : List α) (i : ℤ) (h1 : 0 ≤ i) (h2 : i < (xs.length : ℤ)) :
    pyGet xs i = xs[i.toNat]? := by
  unfold pyGet pyIdx
  rw [if_neg (by omega), if_pos h2]
  rfl

lemma storeAux_ids_length (all : List Sec) :
    ∀ isec run, ((storeAux isec run all).2).length = all.length := by
  induction all with
  | nil => intro isec run; simp [storeAux]
  | cons s rest ih => intro isec run; simp [storeAux, ih]

lemma storeAux_segs_length (all : List Sec) :
    ∀ isec run, ((storeAux isec run all).1).length = (all.map Sec.nseg).sum := by
  induction all with
  | nil => intro isec run; simp [storeAux]
  | cons s rest ih => intro isec run; simp [storeAux, ih]

lemma storeAux_ids_getElem? (all : List Sec) :
    ∀ isec run i, i < all.length →
      ((storeAux isec run all).2)[i]? = some (run + (((all.take i).map Sec.nseg).sum)) := by
  induction all with
  | nil => intro _ _ i h; simp at h
  | cons s rest ih =>
    intro isec run i h
    cases i with
    | zero => simp [storeAux]
    | succ n =>
      have hn : n < rest.length := by simpa using h
      simp only [storeAux, List.getElem?_cons_succ]
      rw [ih (isec + 1) (run + s.nseg) n hn]
      simp [List.take_succ_cons, Nat.add_assoc]

/-- The soma section of the worked example of spec §8, as built. -/
def demoSoma : Sec :=
  { name := "soma", diam := 20, pt0 := (0, -10, 0), pt1 := (0, 10, 0),
    n3d := 2, nseg := 1, parent := none }

/-- The dendrite section of the worked example of spec §8, as built. -/
def demoDend : Sec :=
  { name := "dend", diam := 10, pt0 := (0, 0, 0), pt1 := (0, 0, 0),
    n3d := 2, nseg := 4, parent := some 0 }

/-- Concrete two-section list (soma with 1 segment, dendrite with 4) used by
witnesses; it is the section list of the worked example of spec §8. -/
def demoSecs : List Sec := [demoSoma, demoDend]

/-- C2: after the segment-indexing pass (`store_segments`) over any section
list, `sec_id_in_seg` has one entry per section, `sec_id_in_seg[i]` is the
sum of `nseg` over sections `0..i-1`, consecutive entries differ by exactly
the segment count of the section in between, and the flattened segment
list has length equal to the sum of all sections' `nseg`. -/
theorem store_segments_offsets_and_total (all : List Sec) :
    ((Stylized_Cell.store_segments all).2).length = all.length ∧
    (∀ i, i < all.length →
      ((Stylized_Cell.store_segments all).2)[i]? =
        some (((all.take i).map Sec.nseg).sum)) ∧
    (∀ i s, all[i]? = some s → i + 1 < all.length →
      ((Stylized_Cell.store_segments all).2)[i + 1]? =
        some (((all.take i).map Sec.nseg).sum + s.nseg)) ∧
    ((Stylized_Cell.store_segments all).1).length = (all.map Sec.nseg).sum := by
  refine ⟨storeAux_ids_length all 0 0, ?_, ?_, storeAux_segs_length all 0 0⟩
  · intro i hi
    simpa using storeAux_ids_getElem? all 0 0 i hi
  · intro i s hs hi
    have h := storeAux_ids_getElem? all 0 0 (i + 1) hi
    rw [Stylized_Cell.store_segments, h]
    have htake : all.take (i + 1) = all.take i ++ [s] := by
      rw [List.take_succ, hs]
      rfl
    simp [htake]

/-- Witness for `store_segments_offsets_and_total` at the two-section list
`demoSecs`. -/
theorem store_segments_offsets_and_total_witness :
    ((Stylized_Cell.store_segments demoSecs).2)[1]? =
      some (((demoSecs.take 1).map Sec.nseg).sum) ∧
    ((Stylized_Cell.store_segments demoSecs).2)[0 + 1]? =
      some (((demoSecs.take 0).map Sec.nseg).sum + demoSoma.nseg) :=
  ⟨(store_segments_offsets_and_total demoSecs).2.1 1 (by decide),
   (store_segments_offsets_and_total demoSecs).2.2.1 0 demoSoma (by decide) (by decide)⟩

lemma npSlice_length (xs : List Vec3) (start stop step : ℕ) :
    (npSlice xs start stop step).length = (stop - start + step - 1) / step := by
  simp [npSlice]

lemma npSlice_getElem? (xs : List Vec3) (start stop step k : ℕ)
    (h : k < (stop - start + step - 1) / step) :
    (npSlice xs start stop step)[k]? = some (xs.getD (start + step * k) (0, 0, 0)) := by
  simp [npSlice, List.getElem?_range h]

/-- Point `i` of the `2n+1` evenly spaced interpolation points of a section,
as the spec describes them: `pt0 + (i/(2·nseg)) · (pt1 - pt0)`. -/
def evenPt (s : Sec) (i : ℕ) : Vec3 :=
  s.pt0 + ((i : ℚ) / ((2 * s.nseg : ℕ) : ℚ)) • (s.pt1 - s.pt0)

lemma linspace_getElem? (a b : Vec3) (num i : ℕ) (h : i < num) :
    (linspace a b num)[i]? = some (a + ((i : ℚ) / ((num : ℚ) - 1)) • (b - a)) := by
  rw [linspace, List.getElem?_map, List.getElem?_range h]
  rfl

lemma linspace_eq_evenPt (s : Sec) (i : ℕ) (h : i < 2 * s.nseg + 1) :
    (linspace s.pt0 s.pt1 (2 * s.nseg + 1))[i]? = some (evenPt s i) := by
  rw [linspace_getElem? _ _ _ i h, evenPt]
  have hc : ((i : ℚ) / (((2 * s.nseg + 1 : ℕ) : ℚ) - 1)) =
      ((i : ℚ) / (((2 * s.nseg : ℕ) : ℚ))) := by
    push_cast
    ring_nf
  rw [hc]

lemma sectionSegCoords_length (s : Sec) :
    (sectionSegCoords s).length = s.nseg := by
  simp only [sectionSegCoords, List.length_zipWith, List.length_zip, npSlice_length]
  omega

lemma linspace_getD_evenPt (s : Sec) (i : ℕ) (h : i < 2 * s.nseg + 1) :
    (linspace s.pt0 s.pt1 (2 * s.nseg + 1)).getD i (0, 0, 0) = evenPt s i := by
  rw [List.getD_eq_getElem?_getD, linspace_eq_evenPt s i h]
  rfl

lemma sectionSegCoords_getElem? (s : Sec) (k : ℕ) (hk : k < s.nseg) :
    (sectionSegCoords s)[k]? =
      some { dl := evenPt s (2 * k + 2) - evenPt s (2 * k),
             pc := evenPt s (2 * k + 1), r := s.diam / 2 } := by
  have e1 : (2 + 2 * k) = 2 * k + 2 := by omega
  have e05 : (1 + 2 * k) = 2 * k + 1 := by omega
  have e0 : (0 + 2 * k) = 2 * k := by omega
  simp only [sectionSegCoords, List.zip, List.getElem?_zipWith,
    npSlice_getElem? _ _ _ _ _ (show k < (2 * s.nseg + 1 - 2 + 2 - 1) / 2 by omega),
    npSlice_getElem? _ _ _ _ _ (show k < (2 * s.nseg + 1 - 2 - 0 + 2 - 1) / 2 by omega),
    npSlice_getElem? _ _ _ _ _ (show k < (2 * s.nseg + 1 - 1 - 1 + 2 - 1) / 2 by omega)]
  rw [e1, e05, e0, linspace_getD_evenPt s _ (by omega), linspace_getD_evenPt s _ (by omega),
    linspace_getD_evenPt s _ (by omega)]

/-- C4: for every section with `nseg = n`, the segment-geometry computation
works on the `2n+1` evenly spaced interpolation points between the
section's endpoints (`evenPt`), and the row of segment `k` has
`dl = point (2k+2) - point (2k)`, center `pc = point (2k+1)` and radius
`r = diam/2`, the same radius for every segment of the section; the
computation is a pure function of the sections, so recomputing it on
identical sections yields identical results. -/
theorem calc_seg_coords_segment_geometry (s : Sec) (k : ℕ) (hk : k < s.nseg) :
    (sectionSegCoords s).length = s.nseg ∧
    (linspace s.pt0 s.pt1 (2 * s.nseg + 1)).length = 2 * s.nseg + 1 ∧
    (∀ i, i ≤ 2 * s.nseg →
      (linspace s.pt0 s.pt1 (2 * s.nseg + 1))[i]? = some (evenPt s i)) ∧
    (sectionSegCoords s)[k]? =
      some { dl := evenPt s (2 * k + 2) - evenPt s (2 * k),
             pc := evenPt s (2 * k + 1), r := s.diam / 2 } ∧
    (∀ c₁ c₂ : Cell, c₁ = c₂ →
      Stylized_Cell.calc_seg_coords c₁ = Stylized_Cell.calc_seg_coords c₂) := by
  refine ⟨sectionSegCoords_length s, by simp [linspace], ?_,
    sectionSegCoords_getElem? s k hk, ?_⟩
  · intro i hi
    exact linspace_eq_evenPt s i (by omega)
  · intro c₁ c₂ h
    rw [h]

/-- Witness for `calc_seg_coords_segment_geometry`: segment 1 of the
4-segment demo dendrite. -/
theorem calc_seg_coords_segment_geometry_witness :
    (sectionSegCoords demoDend)[1]? =
      some { dl := evenPt demoDend (2 * 1 + 2) - evenPt demoDend (2 * 1),
             pc := evenPt demoDend (2 * 1 + 1), r := demoDend.diam / 2 } :=
  (calc_seg_coords_segment_geometry demoDend 1 (by decide)).2.2.2.1

/-- Success condition of the addressing part of `Current_injection.__init__`:
it succeeds exactly when the fractional location lies in `[0,1]` and the
target section index is in range of the cell's section list (in Python
index semantics, `-n ≤ i < n`); outside that it fails at call time. -/
lemma injection_creation_ok_iff (cell : Cell) (i : ℤ) (loc : ℚ) :
    (Current_injection.mk_inj cell i loc).isOk = true ↔
      (0 ≤ loc ∧ loc ≤ 1 ∧
        -(cell.all.length : ℤ) ≤ i ∧ i < (cell.all.length : ℤ)) := by
  rw [Current_injection.mk_inj, Current_injection.get_section]
  cases hg : pyGet cell.all i with
  | none =>
    have hno : ¬(-(cell.all.length : ℤ) ≤ i ∧ i < (cell.all.length : ℤ)) := by
      rw [← pyGet_isSome_iff cell.all i, hg]
      simp
    simp only [Except.isOk, Except.toBool]
    constructor
    · intro h
      simp at h
    · intro h
      exact absurd ⟨h.2.2.1, h.2.2.2⟩ hno
  | some s =>
    have hyes : -(cell.all.length : ℤ) ≤ i ∧ i < (cell.all.length : ℤ) := by
      rw [← pyGet_isSome_iff cell.all i, hg]
      simp
    by_cases hloc : loc < 0 ∨ 1 < loc
    · simp only [if_pos hloc, Except.isOk, Except.toBool]
      constructor
      · intro h
        simp at h
      · intro h
        rcases hloc with h1 | h1
        · linarith [h.1]
        · linarith [h.2.1]
    · simp only [if_neg hloc, Except.isOk, Except.toBool]
      push_neg at hloc
      simp only [true_iff]
      exact ⟨hloc.1, hloc.2, hyes.1, hyes.2⟩

/-- C10: for a built cell with `n` sections and `m` segments and negative
indices `-n ≤ i < 0`, `-m ≤ j < 0`, the lookup operations
`Current_injection.get_section`, `Stylized_Cell.get_sec_by_id` and
`Stylized_Cell.get_seg_by_id` succeed and return the element at position
`n + i` (resp. `m + j`): negative indices wrap around Python-style. -/
theorem negative_index_lookup_wraps (cell : Cell) (i j : ℤ)
    (h1 : -(cell.all.length : ℤ) ≤ i) (h2 : i < 0)
    (h3 : -(cell.segments.length : ℤ) ≤ j) (h4 : j < 0) :
    Current_injection.get_section cell i = cell.all[(i + cell.all.length).toNat]? ∧
    (cell.all[(i + cell.all.length).toNat]?).isSome = true ∧
    Stylized_Cell.get_sec_by_id cell [i] =
      .ok (cell.all[(i + cell.all.length).toNat]?).toList ∧
    (cell.segments[(j + cell.segments.length).toNat]?).isSome = true ∧
    Stylized_Cell.get_seg_by_id cell [j] =
      .ok (cell.segments[(j + cell.segments.length).toNat]?).toList := by
  have hga : pyGet cell.all i = cell.all[(i + cell.all.length).toNat]? :=
    pyGet_neg cell.all i h1 h2
  have hgs : pyGet cell.segments j = cell.segments[(j + cell.segments.length).toNat]? :=
    pyGet_neg cell.segments j h3 h4
  have hsa : (cell.all[(i + cell.all.length).toNat]?).isSome = true := by
    rw [getElem?_isSome_iff]
    omega
  have hss : (cell.segments[(j + cell.segments.length).toNat]?).isSome = true := by
    rw [getElem?_isSome_iff]
    omega
  refine ⟨by rw [Current_injection.get_section, hga], hsa, ?_, hss, ?_⟩
  · rcases Option.isSome_iff_exists.mp hsa with ⟨s, hs⟩
    rw [Stylized_Cell.get_sec_by_id]
    simp [List.mapM.loop, hga, hs]
  · rcases Option.isSome_iff_exists.mp hss with ⟨sg, hs⟩
    rw [Stylized_Cell.get_seg_by_id]
    simp [List.mapM.loop, hgs, hs]

/-- Witness for `negative_index_lookup_wraps`: the example cell with
`i = j = -1`. -/
theorem negative_index_lookup_wraps_witness :
    Current_injection.get_section exCell (-1) =
      exCell.all[((-1 : ℤ) + exCell.all.length).toNat]? ∧
    (exCell.all[((-1 : ℤ) + exCell.all.length).toNat]?).isSome = true ∧
    Stylized_Cell.get_sec_by_id exCell [(-1 : ℤ)] =
      .ok (exCell.all[((-1 : ℤ) + exCell.all.length).toNat]?).toList ∧
    (exCell.segments[((-1 : ℤ) + exCell.segments.length).toNat]?).isSome = true ∧
    Stylized_Cell.get_seg_by_id exCell [(-1 : ℤ)] =
      .ok (exCell.segments[((-1 : ℤ) + exCell.segments.length).toNat]?).toList :=
  negative_index_lookup_wraps exCell (-1) (-1) (by with_unfolding_all decide)
    (by with_unfolding_all decide) (by with_unfolding_all decide) (by with_unfolding_all decide)

/-! ## Shape lemmas for the morphology build -/

/-- The soma section as created inside the row loop (before the final
re-centering): diameter `2R`, provisional endpoints `(0,-2R,0)`–`(0,0,0)`,
one segment, no parent. -/
def somaProvisional (row : GeomRow) : Sec :=
  { name := row.name, diam := 2 * row.R, pt0 := (0, -(2 * row.R), 0),
    pt1 := (0, 0, 0), n3d := 2, nseg := 1, parent := none }

/-- The distal endpoint a non-soma row computes from its proximal point
`pt0`: `pt0 + (0, L·sin ang, 0)`, or `pt0 + (L·cos ang, L·sin ang, 0)` when
the row is non-axial. -/
def childPt1 (sinq cosq : ℚ → ℚ) (row : GeomRow) (pt0 : Vec3) : Vec3 :=
  if row.axial then (0 + pt0.1, row.L * sinq row.ang + pt0.2.1, 0 + pt0.2.2)
  else (row.L * cosq row.ang + pt0.1, row.L * sinq row.ang + pt0.2.1, 0 + pt0.2.2)

/-- The (first) section a non-soma row creates, given the resolved parent
index `pidN` and the parent's distal point `pt0`. -/
def childSec (dL : ℚ) (sinq cosq : ℚ → ℚ) (row : GeomRow) (pidN : ℕ)
    (pt0 : Vec3) : Sec :=
  { name := row.name, diam := 2 * row.R, pt0 := pt0,
    pt1 := childPt1 sinq cosq row pt0, n3d := 2,
    nseg := (⌈row.L / dL⌉).toNat, parent := some pidN }

/-- The horizontally mirrored sibling: same section but with the first
coordinate of the distal point negated. -/
def mirrorSec (c : Sec) : Sec :=
  { c with pt1 := (-c.pt1.1, c.pt1.2) }

/-- The one or two sections a non-soma row appends. -/
def childSecs (dL : ℚ) (sinq cosq : ℚ → ℚ) (row : GeomRow) (pidN : ℕ)
    (pt0 : Vec3) : List Sec :=
  if row.axial then [childSec dL sinq cosq row pidN pt0]
  else [childSec dL sinq cosq row pidN pt0,
        mirrorSec (childSec dL sinq cosq row pidN pt0)]

lemma exceptBind_ok {α β : Type} {a : Except PyError α}
    {f : α → Except PyError β} {c : β} (h : (a >>= f) = .ok c) :
    ∃ b, a = .ok b ∧ f b = .ok c := by
  cases a with
  | error e => simp [Bind.bind, Except.bind] at h
  | ok b => exact ⟨b, rfl, by simpa [Bind.bind, Except.bind] using h⟩

lemma pyGetE_ok {α : Type} {xs : List α} {i : ℤ} {v : α}
    (h : pyGetE xs i = .ok v) : pyGet xs i = some v := by
  rw [pyGetE] at h
  cases hg : pyGet xs i with
  | none => rw [hg] at h; simp at h
  | some w => rw [hg] at h; cases h; rfl

lemma somaGetE_ok {all : List Sec} {s : Sec} (h : somaGetE all = .ok s) :
    all[0]? = some s := by
  rw [somaGetE] at h
  cases hg : all[0]? with
  | none => rw [hg] at h; simp at h
  | some w => rw [hg] at h; cases h; rfl

lemma x3dPt1_ok {s : Sec} {v : Vec3} (h : x3dPt1 s = .ok v) :
    2 ≤ s.n3d ∧ v = s.pt1 := by
  rw [x3dPt1] at h
  by_cases hn : s.n3d < 2
  · rw [if_pos hn] at h; simp at h
  · rw [if_neg hn] at h
    cases h
    exact ⟨by omega, rfl⟩

lemma set_location_ok {s s' : Sec} {p0 p1 : Vec3} {n : ℤ}
    (h : set_location s p0 p1 n = .ok s') :
    1 ≤ n ∧ s' = { s with pt0 := p0, pt1 := p1, n3d := 2, nseg := n.toNat } := by
  rw [set_location] at h
  by_cases hn : n < 1
  · rw [if_pos hn] at h; simp at h
  · rw [if_neg hn] at h
    cases h
    exact ⟨by omega, rfl⟩

lemma rowStep0_ok {row : GeomRow} {all all' : List Sec} {si si' : List ℤ}
    {R0' : ℚ} (h : rowStep0 row all si = .ok (all', si', R0')) :
    row.axial = true ∧ all' = all ++ [somaProvisional row] ∧ si' = si ∧
    R0' = row.R := by
  rw [rowStep0] at h
  obtain ⟨s, hs, h⟩ := exceptBind_ok h
  obtain ⟨-, hs'⟩ := set_location_ok hs
  cases ha : row.axial with
  | false => rw [ha] at h; simp at h
  | true =>
    rw [ha, if_pos rfl] at h
    have h' := h
    simp only [pure, Except.pure, Except.ok.injEq, Prod.mk.injEq] at h'
    obtain ⟨h1, h2, h3⟩ := h'
    subst hs'
    refine ⟨rfl, ?_, h2.symm, h3.symm⟩
    rw [← h1]
    simp [somaProvisional, mkSec]

lemma rowStepN_ok {dL : ℚ} {sinq cosq : ℚ → ℚ} {row : GeomRow}
    {all all' : List Sec} {si si' : List ℤ} {R0 R0' : ℚ}
    (h : rowStepN dL sinq cosq row all si R0 = .ok (all', si', R0')) :
    ∃ pidZ psec, pyGet si row.pid = some pidZ ∧
      pyGet (all ++ [mkSec row.name (2 * row.R)]) pidZ = some psec ∧
      2 ≤ psec.n3d ∧ 1 ≤ ⌈row.L / dL⌉ ∧
      all' = all ++ childSecs dL sinq cosq row pidZ.toNat psec.pt1 ∧
      si' = si ∧ R0' = R0 := by
  rw [rowStepN] at h
  obtain ⟨pidZ, hpid, h⟩ := exceptBind_ok h
  obtain ⟨psec, hpsec, h⟩ := exceptBind_ok h
  obtain ⟨pt0, hpt0, h⟩ := exceptBind_ok h
  obtain ⟨hn3d, hpt0v⟩ := x3dPt1_ok hpt0
  obtain ⟨s0', hs0, h⟩ := exceptBind_ok h
  obtain ⟨hseg, hs0v⟩ := set_location_ok hs0
  refine ⟨pidZ, psec, pyGetE_ok hpid, pyGetE_ok hpsec, hn3d, hseg, ?_⟩
  subst hpt0v
  cases ha : row.axial with
  | true =>
    rw [ha, if_pos rfl] at h
    simp only [pure, Except.pure, Except.ok.injEq, Prod.mk.injEq] at h
    obtain ⟨h1, h2, h3⟩ := h
    refine ⟨?_, h2.symm, h3.symm⟩
    rw [← h1, hs0v]
    simp [childSecs, childSec, childPt1, mkSec, ha]
  | false =>
    rw [ha] at h
    simp only [Bool.false_eq_true, if_false] at h
    obtain ⟨s1', hs1, h⟩ := exceptBind_ok h
    obtain ⟨-, hs1v⟩ := set_location_ok hs1
    simp only [pure, Except.pure, Except.ok.injEq, Prod.mk.injEq] at h
    obtain ⟨h1, h2, h3⟩ := h
    refine ⟨?_, h2.symm, h3.symm⟩
    rw [← h1, hs0v, hs1v]
    simp [childSecs, childSec, childPt1, mirrorSec, mkSec, ha]

lemma pyGet_mem {α : Type} {xs : List α} {i : ℤ} {v : α}
    (h : pyGet xs i = some v) : v ∈ xs := by
  rw [pyGet] at h
  cases hp : pyIdx xs.length i with
  | none => rw [hp] at h; simp at h
  | some j =>
    rw [hp] at h
    simp only [Option.some_bind] at h
    exact List.getElem?_mem h

lemma childSecs_head (dL : ℚ) (sinq cosq : ℚ → ℚ) (row : GeomRow) (pidN : ℕ)
    (pt0 : Vec3) :
    (childSecs dL sinq cosq row pidN pt0)[0]? =
      some (childSec dL sinq cosq row pidN pt0) := by
  rw [childSecs]
  split <;> rfl

lemma childSecs_snd (dL : ℚ) (sinq cosq : ℚ → ℚ) (row : GeomRow) (pidN : ℕ)
    (pt0 : Vec3) (hax : row.axial = false) :
    (childSecs dL sinq cosq row pidN pt0)[1]? =
      some (mirrorSec (childSec dL sinq cosq row pidN pt0)) := by
  rw [childSecs, if_neg (by simp [hax])]
  rfl

lemma childSecs_length (dL : ℚ) (sinq cosq : ℚ → ℚ) (row : GeomRow) (pidN : ℕ)
    (pt0 : Vec3) :
    (childSecs dL sinq cosq row pidN pt0).length = if row.axial then 1 else 2 := by
  rw [childSecs]
  split <;> simp

lemma mem_childSecs {dL : ℚ} {sinq cosq : ℚ → ℚ} {row : GeomRow} {pidN : ℕ}
    {pt0 : Vec3} {s : Sec} (h : s ∈ childSecs dL sinq cosq row pidN pt0) :
    s = childSec dL sinq cosq row pidN pt0 ∨
    s = mirrorSec (childSec dL sinq cosq row pidN pt0) := by
  rw [childSecs] at h
  split at h
  · simp at h
    exact Or.inl h
  · simp at h
    tauto

lemma rowStep_ok {dL : ℚ} {sinq cosq : ℚ → ℚ} {j : ℕ} {row : GeomRow}
    {all all' : List Sec} {si si' : List ℤ} {R0 R0' : ℚ}
    (h : rowStep dL sinq cosq j row all si R0 = .ok (all', si', R0')) :
    si' = si.set j (all.length : ℤ) ∧
    ((j = 0 ∧ row.axial = true ∧ all' = all ++ [somaProvisional row] ∧
        R0' = row.R) ∨
     (j ≠ 0 ∧ ∃ pidZ psec,
        pyGet (si.set j (all.length : ℤ)) row.pid = some pidZ ∧
        pyGet (all ++ [mkSec row.name (2 * row.R)]) pidZ = some psec ∧
        2 ≤ psec.n3d ∧ 1 ≤ ⌈row.L / dL⌉ ∧
        all' = all ++ childSecs dL sinq cosq row pidZ.toNat psec.pt1 ∧
        R0' = R0)) := by
  simp only [rowStep] at h
  by_cases hj : j = 0
  · rw [if_pos hj] at h
    obtain ⟨ha, hall, hsi, hR⟩ := rowStep0_ok h
    exact ⟨hsi, Or.inl ⟨hj, ha, hall, hR⟩⟩
  · rw [if_neg hj] at h
    obtain ⟨pidZ, psec, h1, h2, h3, h4, h5, h6, h7⟩ := rowStepN_ok h
    exact ⟨h6, Or.inr ⟨hj, pidZ, psec, h1, h2, h3, h4, h5, h7⟩⟩

lemma rowStep_append {dL : ℚ} {sinq cosq : ℚ → ℚ} {j : ℕ} {row : GeomRow}
    {all all' : List Sec} {si si' : List ℤ} {R0 R0' : ℚ}
    (h : rowStep dL sinq cosq j row all si R0 = .ok (all', si', R0')) :
    ∃ tl, tl ≠ [] ∧ all' = all ++ tl := by
  obtain ⟨-, hc | hc⟩ := rowStep_ok h
  · exact ⟨[somaProvisional row], by simp, hc.2.2.1⟩
  · obtain ⟨-, pidZ, psec, -, -, -, -, hall, -⟩ := hc
    refine ⟨_, ?_, hall⟩
    intro hnil
    have := childSecs_length dL sinq cosq row pidZ.toNat psec.pt1
    rw [hnil] at this
    simp at this
    split at this <;> omega

lemma rowStep_length {dL : ℚ} {sinq cosq : ℚ → ℚ} {j : ℕ} {row : GeomRow}
    {all all' : List Sec} {si si' : List ℤ} {R0 R0' : ℚ}
    (h : rowStep dL sinq cosq j row all si R0 = .ok (all', si', R0')) :
    all'.length = all.length + (if row.axial then 1 else 2) := by
  obtain ⟨-, hc | hc⟩ := rowStep_ok h
  · obtain ⟨-, ha, hall, -⟩ := hc
    rw [hall, ha]
    simp
  · obtain ⟨-, pidZ, psec, -, -, -, -, hall, -⟩ := hc
    rw [hall]
    simp [childSecs_length]

lemma morphAux_append {dL : ℚ} {sinq cosq : ℚ → ℚ} (rows : List GeomRow) :
    ∀ {j : ℕ} {all : List Sec} {si : List ℤ} {R0 : ℚ} {all' : List Sec}
      {R0' : ℚ}, morphAux dL sinq cosq j rows all si R0 = .ok (all', R0') →
      ∃ tl, all' = all ++ tl := by
  induction rows with
  | nil =>
    intro j all si R0 all' R0' h
    simp only [morphAux] at h
    cases h
    exact ⟨[], by simp⟩
  | cons row rest ih =>
    intro j all si R0 all' R0' h
    simp only [morphAux] at h
    obtain ⟨⟨a1, a2, a3⟩, hr, hrest⟩ := exceptBind_ok h
    obtain ⟨tl1, -, h1⟩ := rowStep_append hr
    obtain ⟨tl2, h2⟩ := ih hrest
    subst h1
    exact ⟨tl1 ++ tl2, by rw [h2, List.append_assoc]⟩

lemma morphAux_length {dL : ℚ} {sinq cosq : ℚ → ℚ} (rows : List GeomRow) :
    ∀ {j : ℕ} {all : List Sec} {si : List ℤ} {R0 : ℚ} {all' : List Sec}
      {R0' : ℚ}, morphAux dL sinq cosq j rows all si R0 = .ok (all', R0') →
      all'.length =
        all.length + ((rows.map fun r => if r.axial then 1 else 2).sum) := by
  induction rows with
  | nil =>
    intro j all si R0 all' R0' h
    simp only [morphAux] at h
    cases h
    simp
  | cons row rest ih =>
    intro j all si R0 all' R0' h
    simp only [morphAux] at h
    obtain ⟨⟨a1, a2, a3⟩, hr, hrest⟩ := exceptBind_ok h
    replace hrest : morphAux dL sinq cosq (j + 1) rest a1 a2 a3 = .ok (all', R0') := hrest
    have h1 := rowStep_length hr
    have h2 := ih hrest
    simp only [List.map_cons, List.sum_cons]
    omega

lemma morphAux_R0 {dL : ℚ} {sinq cosq : ℚ → ℚ} (rows : List GeomRow) :
    ∀ {j : ℕ} {all : List Sec} {si : List ℤ} {R0 : ℚ} {all' : List Sec}
      {R0' : ℚ}, 1 ≤ j →
      morphAux dL sinq cosq j rows all si R0 = .ok (all', R0') → R0' = R0 := by
  induction rows with
  | nil =>
    intro j all si R0 all' R0' hj h
    simp only [morphAux] at h
    cases h
    rfl
  | cons row rest ih =>
    intro j all si R0 all' R0' hj h
    simp only [morphAux] at h
    obtain ⟨⟨a1, a2, a3⟩, hr, hrest⟩ := exceptBind_ok h
    obtain ⟨-, hc | hc⟩ := rowStep_ok hr
    · omega
    · obtain ⟨-, pidZ, psec, -, -, -, -, -, hR⟩ := hc
      rw [ih (by omega) hrest, hR]

lemma morphAux_rows {dL : ℚ} {sinq cosq : ℚ → ℚ} (rows : List GeomRow) :
    ∀ {j : ℕ} {all : List Sec} {si : List ℤ} {R0 : ℚ} {all' : List Sec}
      {R0' : ℚ}, morphAux dL sinq cosq j rows all si R0 = .ok (all', R0') →
      j ≤ all.length →
      ∀ k (hk : k < rows.length), 0 < j + k →
      ∃ i pidN pt0, all.length ≤ i ∧ 0 < i ∧
        1 ≤ ⌈(rows.get ⟨k, hk⟩).L / dL⌉ ∧
        all'[i]? = some (childSec dL sinq cosq (rows.get ⟨k, hk⟩) pidN pt0) ∧
        ((rows.get ⟨k, hk⟩).axial = false →
          all'[i + 1]? =
            some (mirrorSec (childSec dL sinq cosq (rows.get ⟨k, hk⟩) pidN pt0))) := by
  induction rows with
  | nil =>
    intro j all si R0 all' R0' h hj k hk hjk
    exact absurd hk (by simp)
  | cons row rest ih =>
    intro j all si R0 all' R0' h hj k hk hjk
    simp only [morphAux] at h
    obtain ⟨⟨a1, a2, a3⟩, hr, hrest⟩ := exceptBind_ok h
    replace hrest : morphAux dL sinq cosq (j + 1) rest a1 a2 a3 = .ok (all', R0') := hrest
    have hlen := rowStep_length hr
    have hone : 1 ≤ (if row.axial then 1 else 2) := by split <;> omega
    cases k with
    | zero =>
      rw [show (row :: rest).get ⟨0, hk⟩ = row from rfl]
      have hj0 : j ≠ 0 := by omega
      obtain ⟨-, hc | hc⟩ := rowStep_ok hr
      · exact absurd hc.1 hj0
      · obtain ⟨-, pidZ, psec, -, -, -, hceil, ha1, -⟩ := hc
        obtain ⟨tl, htl⟩ := morphAux_append rest hrest
        have hcs : 1 ≤ (childSecs dL sinq cosq row pidZ.toNat psec.pt1).length := by
          rw [childSecs_length]
          split <;> omega
        refine ⟨all.length, pidZ.toNat, psec.pt1, le_refl _, by omega, hceil, ?_, ?_⟩
        · rw [htl, ha1, List.append_assoc,
            List.getElem?_append_right (le_refl all.length)]
          simp only [Nat.sub_self]
          rw [List.getElem?_append_left hcs, childSecs_head]
        · intro hax
          have hcs2 : (childSecs dL sinq cosq row pidZ.toNat psec.pt1).length = 2 := by
            rw [childSecs_length, if_neg (by simp [hax])]
          rw [htl, ha1, List.append_assoc,
            List.getElem?_append_right (by omega : all.length ≤ all.length + 1)]
          simp only [Nat.add_sub_cancel_left]
          rw [List.getElem?_append_left (by omega), childSecs_snd dL sinq cosq row _ _ hax]
    | succ k' =>
      have hk' : k' < rest.length := by simpa using hk
      rw [show (row :: rest).get ⟨k' + 1, hk⟩ = rest.get ⟨k', hk'⟩ from rfl]
      obtain ⟨i, pidN, pt0, hi1, hi2, hceil, hget, hmir⟩ :=
        ih hrest (by omega) k' hk' (by omega)
      exact ⟨i, pidN, pt0, by omega, hi2, hceil, hget, hmir⟩

lemma pyGet_bounds {α : Type} {xs : List α} {i : ℤ} {v : α}
    (h : pyGet xs i = some v) : -(xs.length : ℤ) ≤ i ∧ i < (xs.length : ℤ) := by
  rw [← pyGet_isSome_iff, h]
  rfl

lemma morphAux_children {dL : ℚ} {sinq cosq : ℚ → ℚ} (rows : List GeomRow) :
    ∀ {j : ℕ} {all : List Sec} {si : List ℤ} {R0 : ℚ} {all' : List Sec}
      {R0' : ℚ}, morphAux dL sinq cosq j rows all si R0 = .ok (all', R0') →
      (∀ v ∈ si, 0 ≤ v) →
      (∀ a0, all[0]? = some a0 → a0.pt1 = (0, 0, 0)) →
      (∀ s ∈ all, s.parent = some 0 → s.pt0 = (0, 0, 0)) →
      ∀ s ∈ all', s.parent = some 0 → s.pt0 = (0, 0, 0) := by
  induction rows with
  | nil =>
    intro j all si R0 all' R0' h hsi hpt1 hinv
    simp only [morphAux] at h
    cases h
    exact hinv
  | cons row rest ih =>
    intro j all si R0 all' R0' h hsi hpt1 hinv
    simp only [morphAux] at h
    obtain ⟨⟨a1, a2, a3⟩, hr, hrest⟩ := exceptBind_ok h
    replace hrest : morphAux dL sinq cosq (j + 1) rest a1 a2 a3 = .ok (all', R0') := hrest
    obtain ⟨ha2, hc | hc⟩ := rowStep_ok hr
    · obtain ⟨hj0, ha, ha1, -⟩ := hc
      have hsi₂ : ∀ v ∈ a2, 0 ≤ v := by
        intro v hv
        rw [ha2] at hv
        rcases List.mem_or_eq_of_mem_set hv with hv' | hv'
        · exact hsi v hv'
        · rw [hv']
          positivity
      have hpt1₂ : ∀ a0, a1[0]? = some a0 → a0.pt1 = (0, 0, 0) := by
        intro a0 h0
        rw [ha1] at h0
        cases all with
        | nil =>
          simp only [List.nil_append] at h0
          cases h0
          rfl
        | cons b bs =>
          rw [List.getElem?_append_left (by simp)] at h0
          exact hpt1 a0 h0
      have hinv₂ : ∀ s ∈ a1, s.parent = some 0 → s.pt0 = (0, 0, 0) := by
        intro s hs hp
        rw [ha1] at hs
        rcases List.mem_append.mp hs with hs' | hs'
        · exact hinv s hs' hp
        · simp only [List.mem_singleton] at hs'
          rw [hs'] at hp
          simp [somaProvisional] at hp
      exact ih hrest hsi₂ hpt1₂ hinv₂
    · obtain ⟨hj0, pidZ, psec, hpid, hpsec, hn3d, -, ha1, -⟩ := hc
      have hpidnn : 0 ≤ pidZ := by
        have hmem := pyGet_mem hpid
        rcases List.mem_or_eq_of_mem_set hmem with hv' | hv'
        · exact hsi pidZ hv'
        · rw [hv']
          positivity
      cases all with
      | nil =>
        exfalso
        obtain ⟨-, hub⟩ := pyGet_bounds hpsec
        have hpz : pidZ = 0 := by
          simp only [List.nil_append, List.length_cons, List.length_nil] at hub
          omega
        rw [pyGet_nonneg _ _ hpidnn (by simpa using hub), hpz] at hpsec
        simp only [List.nil_append, Int.toNat_zero, List.getElem?_cons_zero,
          Option.some.injEq] at hpsec
        rw [← hpsec] at hn3d
        simp [mkSec] at hn3d
      | cons b bs =>
        have hkey : pidZ.toNat = 0 → psec.pt1 = (0, 0, 0) := by
          intro h0
          obtain ⟨-, hub⟩ := pyGet_bounds hpsec
          rw [pyGet_nonneg _ _ hpidnn hub] at hpsec
          rw [show pidZ.toNat = 0 from h0] at hpsec
          rw [List.getElem?_append_left (by simp)] at hpsec
          simp only [List.getElem?_cons_zero, Option.some.injEq] at hpsec
          rw [← hpsec]
          exact hpt1 b (by simp)
        have hsi₂ : ∀ v ∈ a2, 0 ≤ v := by
          intro v hv
          rw [ha2] at hv
          rcases List.mem_or_eq_of_mem_set hv with hv' | hv'
          · exact hsi v hv'
          · rw [hv']
            positivity
        have hpt1₂ : ∀ a0, a1[0]? = some a0 → a0.pt1 = (0, 0, 0) := by
          intro a0 h0
          rw [ha1, List.getElem?_append_left (by simp)] at h0
          exact hpt1 a0 h0
        have hinv₂ : ∀ s ∈ a1, s.parent = some 0 → s.pt0 = (0, 0, 0) := by
          intro s hs hp
          rw [ha1] at hs
          rcases List.mem_append.mp hs with hs' | hs'
          · exact hinv s hs' hp
          · have h0 : pidZ.toNat = 0 := by
              rcases mem_childSecs hs' with hs'' | hs'' <;>
                · rw [hs''] at hp
                  simp only [childSec, mirrorSec, Option.some.injEq] at hp
                  omega
            have hpt := hkey h0
            rcases mem_childSecs hs' with hs'' | hs'' <;>
              · rw [hs'']
                simp only [childSec, mirrorSec]
                exact hpt
        exact ih hrest hsi₂ hpt1₂ hinv₂

/-- The soma section after the final re-centering of line 85. -/
def finalSoma (r0 : GeomRow) : Sec :=
  { name := r0.name, diam := 2 * r0.R, pt0 := (0, -r0.R, 0),
    pt1 := (0, r0.R, 0), n3d := 2, nseg := 1, parent := none }

lemma set_morphology_ok {dL : ℚ} {sinq cosq : ℚ → ℚ} {rows : List GeomRow}
    {cell : Cell}
    (h : Stylized_Cell.set_morphology dL sinq cosq rows = .ok cell) :
    ∃ r0 rest si' all' R0',
      rows = r0 :: rest ∧ r0.axial = true ∧
      morphAux dL sinq cosq 1 rest [somaProvisional r0] si' r0.R =
        .ok (all', R0') ∧
      (∀ v ∈ si', 0 ≤ v) ∧
      all'[0]? = some (somaProvisional r0) ∧
      cell = mkCell (all'.set 0 (finalSoma r0)) := by
  rw [Stylized_Cell.set_morphology] at h
  obtain ⟨⟨all', R0'⟩, hm, hb1⟩ := exceptBind_ok h
  clear h
  obtain ⟨soma, hsoma, hb2⟩ := exceptBind_ok hb1
  clear hb1
  obtain ⟨soma', hsl, hb3⟩ := exceptBind_ok hb2
  clear hb2
  replace hcell : cell = mkCell (all'.set 0 soma') := by
    simp only [pure, Except.pure, Except.ok.injEq] at hb3
    exact hb3.symm
  clear hb3
  cases rows with
  | nil =>
    simp only [morphAux] at hm
    cases hm
    have h0 := somaGetE_ok hsoma
    simp at h0
  | cons r0 rest =>
    simp only [morphAux] at hm
    obtain ⟨⟨a1, a2, a3⟩, hr, hrest⟩ := exceptBind_ok hm
    clear hm
    replace hrest : morphAux dL sinq cosq 1 rest a1 a2 a3 = .ok (all', R0') := hrest
    obtain ⟨ha2, hc | hc⟩ := rowStep_ok hr
    · obtain ⟨-, hax, ha1, ha3⟩ := hc
      rw [List.nil_append] at ha1
      subst ha1
      subst ha3
      have hR : R0' = r0.R := morphAux_R0 rest (le_refl 1) hrest
      obtain ⟨tl, htl⟩ := morphAux_append rest hrest
      have h0 : all'[0]? = some (somaProvisional r0) := by
        rw [htl, List.getElem?_append_left (by simp)]
        rfl
      have hsome : soma = somaProvisional r0 := by
        have hx := somaGetE_ok hsoma
        rw [h0] at hx
        exact (Option.some.inj hx).symm
      obtain ⟨-, hsoma'⟩ := set_location_ok hsl
      refine ⟨r0, rest, a2, all', R0', rfl, hax, hrest, ?_, h0, ?_⟩
      · intro v hv
        rw [ha2] at hv
        rcases List.mem_or_eq_of_mem_set hv with hv' | hv'
        · rw [List.eq_of_mem_replicate hv']
        · rw [hv']
          positivity
      · rw [hcell, hsoma', hsome, hR]
        rfl
    · exact absurd rfl hc.1

lemma sum_axial_counts (rs : List GeomRow) :
    ((rs.map fun r => if r.axial then 1 else 2).sum) =
      rs.length + (rs.countP fun r => !r.axial) := by
  induction rs with
  | nil => simp
  | cons r rest ih =>
    simp only [List.map_cons, List.sum_cons, List.countP_cons, List.length_cons]
    cases hr : r.axial <;> simp [hr, ih] <;> omega

/-- C8: for every geometry table on which the build succeeds, the number of
sections created is the number of rows plus the number of non-axial rows
excluding the soma row, and in particular at least the number of rows. -/
theorem section_count_formula (dL : ℚ) (sinq cosq : ℚ → ℚ)
    (rows : List GeomRow) (cell : Cell)
    (h : Stylized_Cell.set_morphology dL sinq cosq rows = .ok cell) :
    cell.all.length = rows.length + ((rows.drop 1).countP fun r => !r.axial) ∧
    rows.length ≤ cell.all.length := by
  obtain ⟨r0, rest, si', all', R0', hrows, hax, hrest, -, -, hcell⟩ :=
    set_morphology_ok h
  subst hrows
  subst hcell
  have hlen := morphAux_length rest hrest
  have hsum := sum_axial_counts rest
  have hmk : (mkCell (all'.set 0 (finalSoma r0))).all = all'.set 0 (finalSoma r0) := rfl
  rw [hmk, List.length_set]
  simp only [List.length_cons, List.drop_succ_cons, List.drop_zero]
  simp only [List.length_cons, List.length_nil] at hlen
  omega

/-- C7: in every successful build, the soma section at index 0 has exactly
one segment, regardless of `max_seg_length` and of the soma row's `L`; and
every non-soma row `k ≥ 1` created a section whose segment count is
`ceil(L / max_seg_length)`, which is at least 1. -/
theorem nseg_policy (dL : ℚ) (sinq cosq : ℚ → ℚ) (rows : List GeomRow)
    (cell : Cell)
    (h : Stylized_Cell.set_morphology dL sinq cosq rows = .ok cell) :
    (∃ s, cell.all[0]? = some s ∧ s.nseg = 1) ∧
    (∀ k (hk : k < rows.length), 0 < k →
      ∃ i s, 0 < i ∧ cell.all[i]? = some s ∧
        s.name = (rows.get ⟨k, hk⟩).name ∧
        (s.nseg : ℤ) = ⌈(rows.get ⟨k, hk⟩).L / dL⌉ ∧ 1 ≤ s.nseg) := by
  obtain ⟨r0, rest, si', all', R0', hrows, hax, hrest, hsi, h0, hcell⟩ :=
    set_morphology_ok h
  subst hrows
  subst hcell
  have hmk : (mkCell (all'.set 0 (finalSoma r0))).all = all'.set 0 (finalSoma r0) := rfl
  have hlen0 : 0 < all'.length := by
    have := getElem?_isSome_iff all' 0
    rw [h0] at this
    simpa using this.mp rfl
  constructor
  · refine ⟨finalSoma r0, ?_, rfl⟩
    rw [hmk]
    exact List.getElem?_set_self hlen0
  · intro k hk hk0
    obtain ⟨k', rfl⟩ : ∃ k', k = k' + 1 := ⟨k - 1, by omega⟩
    have hk' : k' < rest.length := by simpa using hk
    rw [show (r0 :: rest).get ⟨k' + 1, hk⟩ = rest.get ⟨k', hk'⟩ from rfl]
    obtain ⟨i, pidN, pt0, hi1, hi2, hceil, hget, -⟩ :=
      morphAux_rows rest hrest (by simp) k' hk' (by omega)
    refine ⟨i, childSec dL sinq cosq (rest.get ⟨k', hk'⟩) pidN pt0,
      hi2, ?_, rfl, ?_, ?_⟩
    · rw [hmk, List.getElem?_set_ne (by omega)]
      exact hget
    · simp only [childSec]
      omega
    · simp only [childSec]
      omega

/-- C5: a non-axial non-soma row makes the build create exactly two
sections: the loop body appends precisely the pair
`[c, mirrorSec c]`, both connected to the same parent; and in the finished
cell every non-axial row `k ≥ 1` has an adjacent pair of sections where
the second is the first with only the sign of the first (horizontal)
coordinate of `pt1` flipped — in particular identical `pt0`, identical
`nseg`, and the same parent attachment. -/
theorem nonaxial_rows_create_mirrored_pair (dL : ℚ) (sinq cosq : ℚ → ℚ) :
    (∀ (row : GeomRow) (all all' : List Sec) (si si' : List ℤ) (R0 R0' : ℚ),
      row.axial = false →
      rowStepN dL sinq cosq row all si R0 = .ok (all', si', R0') →
      ∃ c p, c.parent = some p ∧ all' = all ++ [c, mirrorSec c]) ∧
    (∀ (rows : List GeomRow) (cell : Cell),
      Stylized_Cell.set_morphology dL sinq cosq rows = .ok cell →
      ∀ k (hk : k < rows.length), 0 < k → (rows.get ⟨k, hk⟩).axial = false →
      ∃ i s1 p, 0 < i ∧ cell.all[i]? = some s1 ∧
        cell.all[i + 1]? = some (mirrorSec s1) ∧
        s1.parent = some p ∧ (mirrorSec s1).parent = some p ∧
        (mirrorSec s1).pt0 = s1.pt0 ∧ (mirrorSec s1).nseg = s1.nseg ∧
        (mirrorSec s1).pt1 = (-s1.pt1.1, s1.pt1.2)) := by
  constructor
  · intro row all all' si si' R0 R0' hax h
    obtain ⟨pidZ, psec, -, -, -, -, hall, -, -⟩ := rowStepN_ok h
    refine ⟨childSec dL sinq cosq row pidZ.toNat psec.pt1, pidZ.toNat, rfl, ?_⟩
    rw [hall, childSecs, if_neg (by simp [hax])]
  · intro rows cell h k hk hk0 hax
    obtain ⟨r0, rest, si', all', R0', hrows, -, hrest, -, -, hcell⟩ :=
      set_morphology_ok h
    subst hrows
    subst hcell
    have hmk : (mkCell (all'.set 0 (finalSoma r0))).all =
        all'.set 0 (finalSoma r0) := rfl
    obtain ⟨k', rfl⟩ : ∃ k', k = k' + 1 := ⟨k - 1, by omega⟩
    have hk' : k' < rest.length := by simpa using hk
    rw [show (r0 :: rest).get ⟨k' + 1, hk⟩ = rest.get ⟨k', hk'⟩ from rfl] at hax
    obtain ⟨i, pidN, pt0, hi1, hi2, -, hget, hmir⟩ :=
      morphAux_rows rest hrest (by simp) k' hk' (by omega)
    refine ⟨i, childSec dL sinq cosq (rest.get ⟨k', hk'⟩) pidN pt0, pidN,
      hi2, ?_, ?_, rfl, rfl, rfl, rfl, rfl⟩
    · rw [hmk, List.getElem?_set_ne (by omega)]
      exact hget
    · rw [hmk, List.getElem?_set_ne (by omega)]
      exact hmir hax

/-- C6: two-phase soma placement.  During the build pass the soma row
creates one section with diameter `2R`, provisional endpoints
`(0, -2R, 0)`–`(0, 0, 0)` and one segment; every child section attached to
the soma has proximal endpoint `(0, 0, 0)`; and after the full pass the
soma's endpoints are overwritten to the symmetric `(0, -R, 0)`–`(0, R, 0)`
while the children keep their already-computed `(0, 0, 0)` proximal
endpoints. -/
theorem soma_two_phase_placement (dL : ℚ) (sinq cosq : ℚ → ℚ) :
    (∀ (row : GeomRow) (all all' : List Sec) (si si' : List ℤ) (R0 R0' : ℚ),
      rowStep dL sinq cosq 0 row all si R0 = .ok (all', si', R0') →
      all' = all ++ [somaProvisional row] ∧ R0' = row.R ∧
      (somaProvisional row).diam = 2 * row.R ∧
      (somaProvisional row).pt0 = (0, -(2 * row.R), 0) ∧
      (somaProvisional row).pt1 = (0, 0, 0) ∧
      (somaProvisional row).nseg = 1) ∧
    (∀ (rows : List GeomRow) (cell : Cell),
      Stylized_Cell.set_morphology dL sinq cosq rows = .ok cell →
      (∀ r0, rows[0]? = some r0 →
        cell.all[0]? = some (finalSoma r0) ∧
        (finalSoma r0).pt0 = (0, -r0.R, 0) ∧
        (finalSoma r0).pt1 = (0, r0.R, 0) ∧
        (finalSoma r0).nseg = 1 ∧ (finalSoma r0).diam = 2 * r0.R) ∧
      (∀ s ∈ cell.all, s.parent = some 0 → s.pt0 = (0, 0, 0))) := by
  constructor
  · intro row all all' si si' R0 R0' h
    obtain ⟨-, hc | hc⟩ := rowStep_ok h
    · obtain ⟨-, -, hall, hR⟩ := hc
      exact ⟨hall, hR, rfl, rfl, rfl, rfl⟩
    · exact absurd rfl hc.1
  · intro rows cell h
    obtain ⟨r0, rest, si', all', R0', hrows, -, hrest, hsi, h0, hcell⟩ :=
      set_morphology_ok h
    subst hrows
    subst hcell
    have hmk : (mkCell (all'.set 0 (finalSoma r0))).all =
        all'.set 0 (finalSoma r0) := rfl
    have hlen0 : 0 < all'.length := by
      have := getElem?_isSome_iff all' 0
      rw [h0] at this
      simpa using this.mp rfl
    constructor
    · intro r0' hr0
      simp only [List.getElem?_cons_zero, Option.some.injEq] at hr0
      subst hr0
      refine ⟨?_, rfl, rfl, rfl, rfl⟩
      rw [hmk]
      exact List.getElem?_set_self hlen0
    · have hinv : ∀ s ∈ all', s.parent = some 0 → s.pt0 = (0, 0, 0) := by
        refine morphAux_children rest hrest hsi ?_ ?_
        · intro a0 ha0
          simp only [List.getElem?_cons_zero, Option.some.injEq] at ha0
          rw [← ha0]
          rfl
        · intro s hs hp
          simp only [List.mem_singleton] at hs
          rw [hs] at hp
          simp [somaProvisional] at hp
      intro s hs hp
      rw [hmk] at hs
      rcases List.mem_or_eq_of_mem_set hs with hs' | hs'
      · exact hinv s hs' hp
      · rw [hs'] at hp
        simp [finalSoma] at hp

deriving instance DecidableEq for Except

/-- The result of the non-axial row step on the soma-only state, used for
witnesses. -/
def exMirrorStepRes : List Sec × List ℤ × ℚ :=
  (rowStepN 30 zf zf mirrorRow [somaProvisional somaRow] [0, 0] 10).toOption.getD
    ([], [], 0)

/-- Witness for `nonaxial_rows_create_mirrored_pair`: the mirrored pair of
the concrete non-axial build. -/
theorem nonaxial_rows_create_mirrored_pair_witness :
    (∃ c p, c.parent = some p ∧
      exMirrorStepRes.1 = [somaProvisional somaRow] ++ [c, mirrorSec c]) ∧
    (∃ i s1 p, 0 < i ∧ exMirrorCell.all[i]? = some s1 ∧
      exMirrorCell.all[i + 1]? = some (mirrorSec s1) ∧
      s1.parent = some p ∧ (mirrorSec s1).parent = some p ∧
      (mirrorSec s1).pt0 = s1.pt0 ∧ (mirrorSec s1).nseg = s1.nseg ∧
      (mirrorSec s1).pt1 = (-s1.pt1.1, s1.pt1.2)) :=
  ⟨(nonaxial_rows_create_mirrored_pair 30 zf zf).1 mirrorRow
      [somaProvisional somaRow] exMirrorStepRes.1 [0, 0] exMirrorStepRes.2.1
      10 exMirrorStepRes.2.2 rfl (by with_unfolding_all decide),
   (nonaxial_rows_create_mirrored_pair 30 zf zf).2 exMirrorRows exMirrorCell
      (by with_unfolding_all decide) 1 (by decide) (by decide) rfl⟩

/-- Witness for `soma_two_phase_placement` on the concrete mirror-pair
build: the soma-row step, the final symmetric soma, and a concrete soma
child keeping proximal endpoint `(0,0,0)`. -/
theorem soma_two_phase_placement_witness :
    ([somaProvisional somaRow] = [] ++ [somaProvisional somaRow] ∧
      (10 : ℚ) = somaRow.R ∧
      (somaProvisional somaRow).diam = 2 * somaRow.R ∧
      (somaProvisional somaRow).pt0 = (0, -(2 * somaRow.R), 0) ∧
      (somaProvisional somaRow).pt1 = (0, 0, 0) ∧
      (somaProvisional somaRow).nseg = 1) ∧
    (exMirrorCell.all[0]? = some (finalSoma somaRow) ∧
      (finalSoma somaRow).pt0 = (0, -somaRow.R, 0) ∧
      (finalSoma somaRow).pt1 = (0, somaRow.R, 0) ∧
      (finalSoma somaRow).nseg = 1 ∧ (finalSoma somaRow).diam = 2 * somaRow.R) ∧
    (exMirrorCell.all.getD 1 (mkSec "x" 0)).pt0 = (0, 0, 0) :=
  ⟨(soma_two_phase_placement 30 zf zf).1 somaRow [] [somaProvisional somaRow]
      [0, 0] [0, 0] 0 10 (by with_unfolding_all decide),
   ((soma_two_phase_placement 30 zf zf).2 exMirrorRows exMirrorCell
      (by with_unfolding_all decide)).1 somaRow (by with_unfolding_all decide),
   ((soma_two_phase_placement 30 zf zf).2 exMirrorRows exMirrorCell
      (by with_unfolding_all decide)).2 (exMirrorCell.all.getD 1 (mkSec "x" 0))
      (by with_unfolding_all decide) (by with_unfolding_all decide)⟩

/-- Witness for `nseg_policy` on the worked example: soma has one segment
and the dendrite has `ceil(100/30) = 4`. -/
theorem nseg_policy_witness :
    (∃ s, exCell.all[0]? = some s ∧ s.nseg = 1) ∧
    (∃ i s, 0 < i ∧ exCell.all[i]? = some s ∧ s.name = dendRow.name ∧
      (s.nseg : ℤ) = ⌈dendRow.L / (30 : ℚ)⌉ ∧ 1 ≤ s.nseg) :=
  ⟨(nseg_policy 30 zf zf exRows exCell (by with_unfolding_all decide)).1,
   (nseg_policy 30 zf zf exRows exCell (by with_unfolding_all decide)).2
      1 (by decide) (by decide)⟩

/-- Witness for `section_count_formula` on the mirror-pair build:
3 sections = 2 rows + 1 non-axial row. -/
theorem section_count_formula_witness :
    exMirrorCell.all.length =
      exMirrorRows.length + ((exMirrorRows.drop 1).countP fun r => !r.axial) ∧
    exMirrorRows.length ≤ exMirrorCell.all.length :=
  section_count_formula 30 zf zf exMirrorRows exMirrorCell
    (by with_unfolding_all decide)

/-- Row whose `pid = 2` references a *later* row when placed at index 1. -/
def fwdRow : GeomRow :=
  { name := "a", type := 2, pid := 2, L := 10, R := 1, ang := 0, axial := true }

/-- A final ordinary row, the target of the forward reference. -/
def tailRow : GeomRow :=
  { name := "b", type := 2, pid := 0, L := 10, R := 1, ang := 0, axial := true }

/-- A geometry table whose row 1 forward-references row 2. -/
def fwdRows : List GeomRow := [somaRow, fwdRow, tailRow]

/-- The cell the code silently builds from the forward-referencing table. -/
def fwdCell : Cell :=
  ((buildCell 30 zf zf (.table fwdRows)).toOption.getD none).getD (mkCell [])

/-- C3 counterexample: the build of a geometry table whose row 1 has
`pid = 2`, referencing the later row 2, succeeds — no exception of any
kind is raised, contradicting the claim that such a table fails with
`ConfigurationError`. -/
theorem forward_pid_builds_without_error :
    (buildCell 30 zf zf (.table fwdRows)).isOk = true := by
  with_unfolding_all decide

/-- C3 amended: the code has no `ConfigurationError`.  A non-dataframe
input raises `TypeError`; an empty table raises `IndexError` (from
`geometry.iloc[0]`); a first row that is not type soma raises
`ValueError`; a `pid` outside the Python index range of the row list
raises `IndexError` during the morphology pass; and a `pid` referencing a
later row raises nothing — `sec_index[pid]` still holds its initial value
0, so the section is silently attached to the soma (parent index 0). -/
theorem geometry_error_taxonomy :
    (∀ (dL : ℚ) (sinq cosq : ℚ → ℚ),
      buildCell dL sinq cosq .notDataFrame = .error .typeError) ∧
    (∀ (dL : ℚ) (sinq cosq : ℚ → ℚ),
      buildCell dL sinq cosq (.table []) = .error .indexError) ∧
    (∀ (dL : ℚ) (sinq cosq : ℚ → ℚ) (r : GeomRow) (rest : List GeomRow),
      r.type ≠ 1 → buildCell dL sinq cosq (.table (r :: rest)) = .error .valueError) ∧
    (∀ (dL : ℚ) (sinq cosq : ℚ → ℚ) (j : ℕ) (row : GeomRow) (all : List Sec)
      (si : List ℤ) (R0 : ℚ), j ≠ 0 →
      pyGet (si.set j (all.length : ℤ)) row.pid = none →
      rowStep dL sinq cosq j row all si R0 = .error .indexError) ∧
    ((buildCell 30 zf zf (.table fwdRows)).isOk = true ∧
      fwdCell.all.length = 3 ∧
      (fwdCell.all.getD 1 (mkSec "x" 0)).parent = some 0) := by
  refine ⟨fun dL sinq cosq => rfl, fun dL sinq cosq => rfl, ?_, ?_, ?_⟩
  · intro dL sinq cosq r rest hr
    simp [buildCell, Stylized_Cell.set_geometry, hr]
  · intro dL sinq cosq j row all si R0 hj hpid
    simp only [rowStep, if_neg hj]
    simp [rowStepN, pyGetE, hpid, Bind.bind, Except.bind]
  · refine ⟨?_, ?_, ?_⟩ <;> with_unfolding_all decide

/-- Witness for `geometry_error_taxonomy` at concrete inputs. -/
theorem geometry_error_taxonomy_witness :
    buildCell 30 zf zf .notDataFrame = .error .typeError ∧
    buildCell 30 zf zf (.table []) = .error .indexError ∧
    buildCell 30 zf zf (.table [dendRow]) = .error .valueError ∧
    rowStep 30 zf zf 1 fwdRow [] [0, 0] 0 = .error .indexError ∧
    (buildCell 30 zf zf (.table fwdRows)).isOk = true :=
  ⟨geometry_error_taxonomy.1 30 zf zf,
   geometry_error_taxonomy.2.1 30 zf zf,
   geometry_error_taxonomy.2.2.1 30 zf zf dendRow [] (by decide),
   geometry_error_taxonomy.2.2.2.1 30 zf zf 1 fwdRow [] [0, 0] 0
     (by decide) (by decide),
   geometry_error_taxonomy.2.2.2.2.1⟩

/-- C1, failing input: on the spec §8 example cell (soma + 4-segment
dendrite, 5 segments total, `sec_id_in_seg = [0, 1]`), an injection at
section 1 with `loc = 1.0` resolves to global index
`sec_id_in_seg[1] + nseg = 5` — one past the end of the 5-element segment
list — instead of the claimed clamped value `sec_id_in_seg[1] + nseg - 1 = 4`.
The NEURON point process placed at `sec(1.0)` sits on the end node whose
reported arc position is exactly `1.0`, so `floor(x * nseg) = nseg` is not
clamped.  At `loc = 0.0` and interior locations the claimed formula holds
(`resolve(1, 0) = 1`, `resolve(1, 0.5) = 3`). -/
theorem get_segment_id_loc_one_out_of_range :
    resolveGlobalId 30 (.table exRows) 1 1 = some 5 ∧
    exCell.segments.length = 5 ∧
    exCell.sec_id_in_seg = [0, 1] ∧
    resolveGlobalId 30 (.table exRows) 1 0 = some 1 ∧
    resolveGlobalId 30 (.table exRows) 1 (1 / 2) = some 3 := by
  with_unfolding_all decide

/-- C9 counterexample: on the example cell (2 sections), an out-of-range
section index fails with `IndexError` (from `self.cell.all[sec_index]`)
and an out-of-range location fails with the NEURON error raised by
`section(loc)` — not with any `AddressingError`, a class that exists
nowhere in the code. -/
theorem injection_failure_not_addressing_error :
    exCell.all.length = 2 ∧
    Current_injection.mk_inj exCell 5 (1 / 2) = .error .indexError ∧
    Current_injection.mk_inj exCell 1 2 = .error .nrnError := by
  with_unfolding_all decide

/-- C9 amended: creating a current injection fails at call time whenever
the fractional location lies outside `[0,1]` or the target section index
is out of (Python) range of the cell's section list, and otherwise
succeeds — but there is no `AddressingError`: an invalid section index
raises `IndexError` from the list access `self.cell.all[self.sec_index]`,
and an invalid location raises the NEURON error from `section(loc)`
(checked only after the index lookup succeeded). -/
theorem injection_creation_error_taxonomy (cell : Cell) (i : ℤ) (loc : ℚ) :
    ((Current_injection.mk_inj cell i loc).isOk = true ↔
      (0 ≤ loc ∧ loc ≤ 1 ∧
        -(cell.all.length : ℤ) ≤ i ∧ i < (cell.all.length : ℤ))) ∧
    (pyGet cell.all i = none →
      Current_injection.mk_inj cell i loc = .error .indexError) ∧
    (∀ s, pyGet cell.all i = some s → (loc < 0 ∨ 1 < loc) →
      Current_injection.mk_inj cell i loc = .error .nrnError) := by
  refine ⟨injection_creation_ok_iff cell i loc, ?_, ?_⟩
  · intro hnone
    rw [Current_injection.mk_inj, Current_injection.get_section, hnone]
  · intro s hsome hloc
    rw [Current_injection.mk_inj, Current_injection.get_section, hsome]
    simp only [if_pos hloc]

/-- Witness for `injection_creation_error_taxonomy` on the example cell:
a succeeding call, an `IndexError` call and a NEURON-error call. -/
theorem injection_creation_error_taxonomy_witness :
    (Current_injection.mk_inj exCell 1 (1 / 2)).isOk = true ∧
    Current_injection.mk_inj exCell 5 (1 / 2) = .error .indexError ∧
    Current_injection.mk_inj exCell 1 2 = .error .nrnError :=
  ⟨(injection_creation_error_taxonomy exCell 1 (1 / 2)).1.mpr
      (by with_unfolding_all decide),
   (injection_creation_error_taxonomy exCell 5 (1 / 2)).2.1
      (by with_unfolding_all decide),
   (injection_creation_error_taxonomy exCell 1 2).2.2
      (exCell.all.getD 1 (mkSec "x" 0)) (by with_unfolding_all decide)
      (by with_unfolding_all decide)⟩
